import Mathlib

/-!
Verification of the hierarchical markdown chunker
(`langextract_docling/markdown_chunker.py`).

The chunker walks an already-parsed document tree in pre-order and decides,
node by node, whether to hand the node to an external serializer; the
serializer renders text and reports the leaf items it consumed, mutating a
`visited` set.  The chunker assembles the serializer results into chunks,
skipping empty results.

The serializer (`MarkdownDocSerializer` from `docling_core`) is an external
collaborator; it is embedded abstractly as a function from a node and a
visited set to a result and an updated visited set, and the theorems that
depend on its behaviour take its documented contract as hypotheses.
-/

namespace LangextractDocling

/-- The four node variants distinguished by the chunker's `isinstance` test:
`DocItem` leaves, `ListGroup`, `InlineGroup`, and any other group kind. -/
inductive NodeKind where
  | leafItem
  | listGroup
  | inlineGroup
  | otherGroup
deriving DecidableEq, Repr

/-- A node of the document tree: a stable reference id (`self_ref`), a
variant tag, and the child nodes. -/
inductive Node where
  | mk (self_ref : String) (kind : NodeKind) (children : List Node) : Node
deriving Repr

def Node.self_ref : Node → String
  | .mk r _ _ => r

def Node.kind : Node → NodeKind
  | .mk _ k _ => k

def Node.children : Node → List Node
  | .mk _ _ c => c

mutual

/-- Pre-order traversal of one node: the node itself, then its children
one level deeper (`DoclingDocument.iterate_items` with `with_groups=True`). -/
def iterateNode : Node → Nat → List (Node × Nat)
  | .mk r k cs, lvl => (.mk r k cs, lvl) :: iterateNodes cs (lvl + 1)

/-- Pre-order traversal of a list of sibling nodes at a common level. -/
def iterateNodes : List Node → Nat → List (Node × Nat)
  | [], _ => []
  | n :: rest, lvl => iterateNode n lvl ++ iterateNodes rest lvl

end

/-- A docling document: provenance metadata (`origin`) and the body tree. -/
structure DLDocument where
  origin : Option String
  body : List Node
deriving Repr

/-- `dl_doc.iterate_items(with_groups=True)`: pre-order (node, level) pairs. -/
def DLDocument.iterate_items (d : DLDocument) : List (Node × Nat) :=
  iterateNodes d.body 0

/-- A serialization result: the rendered text and the reference ids of the
leaf items the serializer consumed (`ser_res.spans`), in reported order. -/
structure SerResult where
  text : String
  spans : List String
deriving DecidableEq, Repr

/-- `create_ser_result()`: the empty serialization result. -/
def create_ser_result : SerResult :=
  { text := "", spans := [] }

/-- The serializer capability: `serialize(item, visited)` returns the
result and the updated visited set (the Python code mutates `visited`
in place; the embedding passes the set explicitly). -/
abbrev Serializer := Node → List String → SerResult × List String

/-- The external `MarkdownDocSerializer`, constructed per document:
its `serialize` method and the reference set `get_excluded_refs` returns
at the start of the chunk operation. -/
structure MarkdownDocSerializer where
  serialize : Serializer
  get_excluded_refs : List String

/-- Insert a key into a sorted key list (ascending). -/
def insertKey (k : Nat) : List Nat → List Nat
  | [] => [k]
  | x :: xs => if k ≤ x then k :: x :: xs else x :: insertKey k xs

/-- Ascending sort of the keys of the heading map (`sorted(heading_by_level)`). -/
def sortKeys : List Nat → List Nat
  | [] => []
  | x :: xs => insertKey x (sortKeys xs)

/-- `[heading_by_level[k] for k in sorted(heading_by_level)] or None`:
heading texts by ascending level, `none` when the mapping is empty. -/
def buildHeadings (heading_by_level : List (Nat × String)) : Option (List String) :=
  match (sortKeys (heading_by_level.map Prod.fst)).filterMap
      (fun k => (heading_by_level.find? (fun p => p.1 = k)).map Prod.snd) with
  | [] => none
  | l => some l

/-- `isinstance(item, (ListGroup, InlineGroup, DocItem))`: every variant
except `OtherGroup` is eligible for serialization. -/
def eligibleKind (n : Node) : Bool :=
  match n.kind with
  | .leafItem => true
  | .listGroup => true
  | .inlineGroup => true
  | .otherGroup => false

/-- An emitted chunk: text, the consumed leaf reference ids
(`doc_items`, the spec's spannedItems), the heading breadcrumb, and the
document origin. -/
structure Chunk where
  text : String
  doc_items : List String
  headings : Option (List String)
  origin : Option String
deriving DecidableEq, Repr

/-- The body of the `for item, level in dl_doc.iterate_items(...)` loop in
`HierarchicalMarkdownChunker.chunk`, with the mutable `visited` set passed
explicitly.  The source's `ser_res` variable is reassigned before every
read (each `continue` skips the reads), so it is not threaded. -/
def chunkLoop (ser : Serializer) (excluded_refs : List String)
    (origin : Option String) (heading_by_level : List (Nat × String)) :
    List (Node × Nat) → List String → List Chunk
  | [], _ => []
  | (item, _lvl) :: rest, visited =>
    if item.self_ref ∈ excluded_refs then
      chunkLoop ser excluded_refs origin heading_by_level rest visited
    else if eligibleKind item = true ∧ item.self_ref ∉ visited then
      let res := ser item visited
      if res.1.text = "" then
        chunkLoop ser excluded_refs origin heading_by_level rest res.2
      else if res.1.spans = [] then
        chunkLoop ser excluded_refs origin heading_by_level rest res.2
      else
        { text := res.1.text, doc_items := res.1.spans,
          headings := buildHeadings heading_by_level, origin := origin } ::
          chunkLoop ser excluded_refs origin heading_by_level rest res.2
    else
      chunkLoop ser excluded_refs origin heading_by_level rest visited

/-- The chunker object.  Its only configuration is the merge delimiter
`delim` (default `"\n"`), inherited from `BaseChunker`. -/
structure HierarchicalMarkdownChunker where
  delim : String := "\n"
deriving DecidableEq, Repr

/-- `HierarchicalMarkdownChunker.chunk`: builds the serializer state
(`heading_by_level`, `visited`), obtains the excluded references from the
serializer, runs the traversal loop, and returns the emitted chunks
together with the chunker object after the call (the method never writes
to `self`, so the object is returned unchanged). -/
def HierarchicalMarkdownChunker.chunk (self : HierarchicalMarkdownChunker)
    (my_doc_ser : MarkdownDocSerializer) (dl_doc : DLDocument) :
    List Chunk × HierarchicalMarkdownChunker :=
  let heading_by_level : List (Nat × String) := []
  let visited : List String := []
  let excluded_refs := my_doc_ser.get_excluded_refs
  (chunkLoop my_doc_ser.serialize excluded_refs dl_doc.origin heading_by_level
    dl_doc.iterate_items visited, self)

/-! ### Instrumented variants of the loop

The following definitions are the same loop with additional observation:
an invocation trace (which `(item, visited)` pairs the serializer was
called on), a fallible serializer (`Except`), and an explicit state record
separating the caller-owned inputs from the operation-local mutable state.
Each is tied back to `chunkLoop` by an equation lemma below. -/

/-- `chunkLoop`, additionally recording every serializer invocation as the
pair of the node passed to `serialize` and the visited set at that moment. -/
def chunkLoopTrace (ser : Serializer) (excluded_refs : List String)
    (origin : Option String) (heading_by_level : List (Nat × String)) :
    List (Node × Nat) → List String → List Chunk × List (Node × List String)
  | [], _ => ([], [])
  | (item, _lvl) :: rest, visited =>
    if item.self_ref ∈ excluded_refs then
      chunkLoopTrace ser excluded_refs origin heading_by_level rest visited
    else if eligibleKind item = true ∧ item.self_ref ∉ visited then
      let res := ser item visited
      let tail := chunkLoopTrace ser excluded_refs origin heading_by_level rest res.2
      if res.1.text = "" then
        (tail.1, (item, visited) :: tail.2)
      else if res.1.spans = [] then
        (tail.1, (item, visited) :: tail.2)
      else
        ({ text := res.1.text, doc_items := res.1.spans,
           headings := buildHeadings heading_by_level, origin := origin } :: tail.1,
         (item, visited) :: tail.2)
    else
      chunkLoopTrace ser excluded_refs origin heading_by_level rest visited

/-- A serializer that can fail, modelling a raised exception as
`Except.error`. -/
abbrev SerializerE (ε : Type) := Node → List String → Except ε (SerResult × List String)

/-- `chunkLoop` over a fallible serializer: a raised exception aborts the
loop and is returned unchanged (the source has no `try`/`except`). -/
def chunkLoopE {ε : Type} (ser : SerializerE ε) (excluded_refs : List String)
    (origin : Option String) (heading_by_level : List (Nat × String)) :
    List (Node × Nat) → List String → Except ε (List Chunk)
  | [], _ => .ok []
  | (item, _lvl) :: rest, visited =>
    if item.self_ref ∈ excluded_refs then
      chunkLoopE ser excluded_refs origin heading_by_level rest visited
    else if eligibleKind item = true ∧ item.self_ref ∉ visited then
      match ser item visited with
      | .error e => .error e
      | .ok res =>
        if res.1.text = "" then
          chunkLoopE ser excluded_refs origin heading_by_level rest res.2
        else if res.1.spans = [] then
          chunkLoopE ser excluded_refs origin heading_by_level rest res.2
        else
          (chunkLoopE ser excluded_refs origin heading_by_level rest res.2).map
            (fun cs =>
              { text := res.1.text, doc_items := res.1.spans,
                headings := buildHeadings heading_by_level, origin := origin } :: cs)
    else
      chunkLoopE ser excluded_refs origin heading_by_level rest visited

/-- The state touched by a chunk operation: the caller-owned document and
excluded-reference set, and the operation-local `visited` set and
`heading_by_level` mapping. -/
structure ChunkOpState where
  dl_doc : DLDocument
  excluded_refs : List String
  visited : List String
  heading_by_level : List (Nat × String)
deriving Repr

/-- `chunkLoop` with the whole operation state threaded explicitly: the
loop reads `excluded_refs`, the document origin and `heading_by_level`,
and writes only `visited` (through the serializer call). -/
def chunkLoopSt (ser : Serializer) :
    List (Node × Nat) → ChunkOpState → List Chunk × ChunkOpState
  | [], st => ([], st)
  | (item, _lvl) :: rest, st =>
    if item.self_ref ∈ st.excluded_refs then
      chunkLoopSt ser rest st
    else if eligibleKind item = true ∧ item.self_ref ∉ st.visited then
      let res := ser item st.visited
      let out := chunkLoopSt ser rest { st with visited := res.2 }
      if res.1.text = "" then
        out
      else if res.1.spans = [] then
        out
      else
        ({ text := res.1.text, doc_items := res.1.spans,
           headings := buildHeadings st.heading_by_level,
           origin := st.dl_doc.origin } :: out.1, out.2)
    else
      chunkLoopSt ser rest st

/-! ### A concrete serializer instance

The real serializer lives in `docling_core` and is outside this
repository; the theorems below only assume its documented contract
(§4.2 of the spec).  `mdSerialize` is one concrete serializer satisfying
that contract — it consumes every not-yet-visited, not-excluded leaf in
the subtree, renders their references joined by newlines, and adds the
consumed leaves to the visited set — used to instantiate the theorems on
concrete documents. -/

mutual

/-- The leaf reference ids in a node's subtree, in pre-order. -/
def subtreeLeafRefs : Node → List String
  | .mk r k cs =>
    (match k with
      | .leafItem => [r]
      | _ => []) ++ subtreeLeafRefsList cs

/-- The leaf reference ids under a list of sibling nodes, in pre-order. -/
def subtreeLeafRefsList : List Node → List String
  | [] => []
  | n :: rest => subtreeLeafRefs n ++ subtreeLeafRefsList rest

end

/-- A concrete serializer obeying the §4.2 contract, parameterized by the
exclusion set its policy produced. -/
def mdSerialize (excluded_refs : List String) : Serializer := fun n visited =>
  let fresh := (subtreeLeafRefs n).filter
    (fun r => r ∉ visited ∧ r ∉ excluded_refs)
  ({ text := String.intercalate "\n" fresh, spans := fresh }, visited ++ fresh)

/-- A leaf node with the given reference id. -/
def leaf (r : String) : Node := .mk r .leafItem []

/-- A small document: a list group with two leaf children followed by a
top-level leaf. -/
def sampleDoc : DLDocument :=
  { origin := some "sample.md",
    body := [Node.mk "#/groups/0" .listGroup [leaf "#/texts/0", leaf "#/texts/1"],
             leaf "#/texts/2"] }

/-- The first node of the sample document: the list group. -/
def sampleGroupNode : Node :=
  Node.mk "#/groups/0" .listGroup [leaf "#/texts/0", leaf "#/texts/1"]

/-- The first chunk the sample run emits. -/
def sampleChunk0 : Chunk :=
  { text := "#/texts/0\n#/texts/1",
    doc_items := ["#/texts/0", "#/texts/1"],
    headings := none,
    origin := some "sample.md" }

/-- `HierarchicalMarkdownChunker.chunk` over a fallible serializer: the
same operation, with a raised exception surfacing as `Except.error`. -/
def HierarchicalMarkdownChunker.chunkE {ε : Type}
    (_self : HierarchicalMarkdownChunker) (ser : SerializerE ε)
    (excluded_refs : List String) (dl_doc : DLDocument) :
    Except ε (List Chunk) :=
  chunkLoopE ser excluded_refs dl_doc.origin [] dl_doc.iterate_items []

/-- A serializer that always fails, modelling a dangling reference. -/
def failSer : SerializerE String := fun _ _ => .error "dangling reference"

/-- Two chunks attribute no leaf reference in common. -/
def SpansDisjoint (c₁ c₂ : Chunk) : Prop :=
  ∀ r ∈ c₁.doc_items, r ∉ c₂.doc_items

/-- Serializer contract, part 1: every consumed leaf is added to the
visited set (`serialize` mutates `visited` to include every leaf it
descends into). -/
def SerAddsConsumed (ser : Serializer) : Prop :=
  ∀ n v, ∀ r ∈ (ser n v).1.spans, r ∈ (ser n v).2

/-- Serializer contract, part 2: a leaf already in the visited set is
never consumed again. -/
def SerConsumesFresh (ser : Serializer) : Prop :=
  ∀ n v, ∀ r ∈ (ser n v).1.spans, r ∉ v

/-- Serializer contract, part 3: `serialize` only ever adds to the visited
set (in-place `set.add` mutation never removes members). -/
def SerVisitedMono (ser : Serializer) : Prop :=
  ∀ n v, ∀ r ∈ v, r ∈ (ser n v).2

/-! ### Shared lemmas about the loop -/

/-- The empty heading mapping renders as an absent breadcrumb. -/
theorem buildHeadings_nil : buildHeadings [] = none := rfl

/-- Shape of every chunk produced by the loop: non-empty text, non-empty
spans, headings built from the (constant) heading mapping, the given
origin, and text/spans taken verbatim from one serializer invocation. -/
theorem chunkLoop_mem_shape (ser : Serializer) (excl : List String)
    (orig : Option String) (hbl : List (Nat × String)) :
    ∀ (items : List (Node × Nat)) (visited : List String),
      ∀ c ∈ chunkLoop ser excl orig hbl items visited,
        c.text ≠ "" ∧ c.doc_items ≠ [] ∧
        c.headings = buildHeadings hbl ∧ c.origin = orig ∧
        ∃ n w, (ser n w).1.text = c.text ∧ (ser n w).1.spans = c.doc_items := by
  intro items
  induction items with
  | nil => intro visited c hc; simp [chunkLoop] at hc
  | cons p rest ih =>
    obtain ⟨item, lvl⟩ := p
    intro visited c hc
    simp only [chunkLoop] at hc
    split at hc
    · exact ih visited c hc
    · split at hc
      · split at hc
        · exact ih _ c hc
        · split at hc
          · exact ih _ c hc
          · rcases List.mem_cons.mp hc with h | h
            · subst h
              refine ⟨by assumption, by assumption, rfl, rfl, item, visited, rfl, rfl⟩
            · exact ih _ c h
      · exact ih visited c hc

/-- Under the contract, every chunk the loop emits attributes only leaves
that were outside the visited set the loop started from. -/
theorem chunkLoop_spans_not_visited (ser : Serializer)
    (hfresh : SerConsumesFresh ser) (hmono : SerVisitedMono ser)
    (excl : List String) (orig : Option String) (hbl : List (Nat × String)) :
    ∀ (items : List (Node × Nat)) (visited : List String),
      ∀ c ∈ chunkLoop ser excl orig hbl items visited,
        ∀ r ∈ c.doc_items, r ∉ visited := by
  intro items
  induction items with
  | nil => intro visited c hc; simp [chunkLoop] at hc
  | cons p rest ih =>
    obtain ⟨item, lvl⟩ := p
    intro visited c hc r hr hrv
    simp only [chunkLoop] at hc
    split at hc
    · exact ih visited c hc r hr hrv
    · split at hc
      · split at hc
        · exact ih _ c hc r hr (hmono item visited r hrv)
        · split at hc
          · exact ih _ c hc r hr (hmono item visited r hrv)
          · rcases List.mem_cons.mp hc with h | h
            · subst h
              exact hfresh item visited r hr hrv
            · exact ih _ c h r hr (hmono item visited r hrv)
      · exact ih visited c hc r hr hrv

/-- Under the contract, the chunk list the loop emits is pairwise
disjoint in its attributed leaves. -/
theorem chunkLoop_pairwise_disjoint (ser : Serializer)
    (hadds : SerAddsConsumed ser) (hfresh : SerConsumesFresh ser)
    (hmono : SerVisitedMono ser)
    (excl : List String) (orig : Option String) (hbl : List (Nat × String)) :
    ∀ (items : List (Node × Nat)) (visited : List String),
      List.Pairwise SpansDisjoint (chunkLoop ser excl orig hbl items visited) := by
  intro items
  induction items with
  | nil => intro visited; simp [chunkLoop]
  | cons p rest ih =>
    obtain ⟨item, lvl⟩ := p
    intro visited
    simp only [chunkLoop]
    split
    · exact ih visited
    · split
      · split
        · exact ih _
        · split
          · exact ih _
          · refine List.Pairwise.cons ?_ (ih _)
            intro c₂ hc₂ r hr hr₂
            exact chunkLoop_spans_not_visited ser hfresh hmono excl orig hbl
              rest _ c₂ hc₂ r hr₂ (hadds item visited r hr)
      · exact ih visited

/-! ### `mdSerialize` satisfies the serializer contract -/

theorem mdSerialize_adds (excl : List String) :
    SerAddsConsumed (mdSerialize excl) := by
  intro n v r hr
  exact List.mem_append_right v hr

theorem mdSerialize_fresh (excl : List String) :
    SerConsumesFresh (mdSerialize excl) := by
  intro n v r hr
  have := List.of_mem_filter hr
  simp only [decide_eq_true_eq] at this
  exact this.1

theorem mdSerialize_mono (excl : List String) :
    SerVisitedMono (mdSerialize excl) := by
  intro n v r hr
  exact List.mem_append_left _ hr

theorem mdSerialize_respects (excl : List String) :
    ∀ n v, ∀ r ∈ (mdSerialize excl n v).1.spans, r ∉ excl := by
  intro n v r hr
  have := List.of_mem_filter hr
  simp only [decide_eq_true_eq] at this
  exact this.2

/-- The chunks computed by the traced loop are the chunks of the plain
loop: the instrumentation only observes. -/
theorem chunkLoopTrace_fst (ser : Serializer) (excl : List String)
    (orig : Option String) (hbl : List (Nat × String)) :
    ∀ (items : List (Node × Nat)) (visited : List String),
      (chunkLoopTrace ser excl orig hbl items visited).1
        = chunkLoop ser excl orig hbl items visited := by
  intro items
  induction items with
  | nil => intro v; rfl
  | cons p rest ih =>
    obtain ⟨item, lvl⟩ := p
    intro v
    by_cases h1 : item.self_ref ∈ excl
    · simp [chunkLoopTrace, chunkLoop, h1, ih]
    · by_cases h2 : eligibleKind item = true ∧ item.self_ref ∉ v
      · by_cases h3 : (ser item v).1.text = ""
        · simp [chunkLoopTrace, chunkLoop, h1, h2, h3, ih]
        · by_cases h4 : (ser item v).1.spans = []
          · simp [chunkLoopTrace, chunkLoop, h1, h2, h3, h4, ih]
          · simp [chunkLoopTrace, chunkLoop, h1, h2, h3, h4, ih]
      · simp [chunkLoopTrace, chunkLoop, h1, h2, ih]

/-- One step of the traced loop: the serializer is invoked on the head
node, with the current visited set, exactly when the node is not
excluded, of an eligible kind, and not yet visited. -/
theorem chunkLoopTrace_cons (ser : Serializer) (excl : List String)
    (orig : Option String) (hbl : List (Nat × String))
    (item : Node) (lvl : Nat) (rest : List (Node × Nat))
    (visited : List String) :
    (chunkLoopTrace ser excl orig hbl ((item, lvl) :: rest) visited).2
      = if item.self_ref ∉ excl ∧ eligibleKind item = true ∧
            item.self_ref ∉ visited
        then (item, visited) ::
          (chunkLoopTrace ser excl orig hbl rest (ser item visited).2).2
        else (chunkLoopTrace ser excl orig hbl rest visited).2 := by
  by_cases h1 : item.self_ref ∈ excl
  · simp [chunkLoopTrace, h1]
  · by_cases h2 : eligibleKind item = true ∧ item.self_ref ∉ visited
    · by_cases h3 : (ser item visited).1.text = ""
      · simp [chunkLoopTrace, h1, h2, h3]
      · by_cases h4 : (ser item visited).1.spans = []
        · simp [chunkLoopTrace, h1, h2, h3, h4]
        · simp [chunkLoopTrace, h1, h2, h3, h4]
    · simp [chunkLoopTrace, h1, h2]

/-- Every recorded serializer invocation satisfies the gate: the node was
not excluded, eligible in kind, and unvisited at invocation time. -/
theorem chunkLoopTrace_mem_sound (ser : Serializer) (excl : List String)
    (orig : Option String) (hbl : List (Nat × String)) :
    ∀ (items : List (Node × Nat)) (visited : List String) (n : Node)
      (w : List String),
      (n, w) ∈ (chunkLoopTrace ser excl orig hbl items visited).2 →
        n.self_ref ∉ excl ∧ eligibleKind n = true ∧ n.self_ref ∉ w := by
  intro items
  induction items with
  | nil => intro visited n w h; simp [chunkLoopTrace] at h
  | cons p rest ih =>
    obtain ⟨item, lvl⟩ := p
    intro visited n w h
    rw [chunkLoopTrace_cons] at h
    by_cases hcond : item.self_ref ∉ excl ∧ eligibleKind item = true ∧
        item.self_ref ∉ visited
    · rw [if_pos hcond] at h
      rcases List.mem_cons.mp h with h | h
      · obtain ⟨rfl, rfl⟩ := Prod.ext_iff.mp h
        exact hcond
      · exact ih _ n w h
    · rw [if_neg hcond] at h
      exact ih visited n w h

/-- When the serializer never fails, the fallible loop computes exactly
the plain loop's chunks. -/
theorem chunkLoopE_ok {ε : Type} (ser : Serializer) (excl : List String)
    (orig : Option String) (hbl : List (Nat × String)) :
    ∀ (items : List (Node × Nat)) (visited : List String),
      chunkLoopE (ε := ε) (fun n v => .ok (ser n v)) excl orig hbl items visited
        = .ok (chunkLoop ser excl orig hbl items visited) := by
  intro items
  induction items with
  | nil => intro v; rfl
  | cons p rest ih =>
    obtain ⟨item, lvl⟩ := p
    intro v
    by_cases h1 : item.self_ref ∈ excl
    · simp [chunkLoopE, chunkLoop, h1, ih]
    · by_cases h2 : eligibleKind item = true ∧ item.self_ref ∉ v
      · by_cases h3 : (ser item v).1.text = ""
        · simp [chunkLoopE, chunkLoop, h1, h2, h3, ih]
        · by_cases h4 : (ser item v).1.spans = []
          · simp [chunkLoopE, chunkLoop, h1, h2, h3, h4, ih]
          · simp [chunkLoopE, chunkLoop, h1, h2, h3, h4, ih, Except.map]
      · simp [chunkLoopE, chunkLoop, h1, h2, ih]

/-- Any error the fallible loop returns is an error some serializer
invocation returned, unchanged. -/
theorem chunkLoopE_error_source {ε : Type} (ser : SerializerE ε)
    (excl : List String) (orig : Option String) (hbl : List (Nat × String)) :
    ∀ (items : List (Node × Nat)) (visited : List String) (e : ε),
      chunkLoopE ser excl orig hbl items visited = .error e →
        ∃ n w, ser n w = .error e := by
  intro items
  induction items with
  | nil => intro v e h; simp [chunkLoopE] at h
  | cons p rest ih =>
    obtain ⟨item, lvl⟩ := p
    intro v e h
    simp only [chunkLoopE] at h
    split at h
    · exact ih v e h
    · split at h
      · split at h
        · next e' heq =>
          cases h
          exact ⟨item, v, heq⟩
        · next res heq =>
          split at h
          · exact ih _ e h
          · split at h
            · exact ih _ e h
            · cases hx : chunkLoopE ser excl orig hbl rest res.2 with
              | error e'' =>
                rw [hx] at h
                simp only [Except.map, Except.error.injEq] at h
                exact h ▸ ih res.2 e'' hx
              | ok cs =>
                rw [hx] at h
                simp [Except.map] at h
      · exact ih v e h

/-! ### The claims -/

/-- C1: across all chunks emitted by `chunk(D)`, the spannedItems lists
are pairwise disjoint — no leaf reference id is attributed to two distinct
chunks — given the serializer contract that `serialize(node, visited)`
adds every leaf it consumes to `visited` and never consumes a leaf
already in `visited`. -/
theorem chunk_spannedItems_pairwise_disjoint
    (hmc : HierarchicalMarkdownChunker) (s : MarkdownDocSerializer)
    (doc : DLDocument)
    (hadds : SerAddsConsumed s.serialize) (hfresh : SerConsumesFresh s.serialize)
    (hmono : SerVisitedMono s.serialize) :
    List.Pairwise SpansDisjoint (hmc.chunk s doc).1 :=
  chunkLoop_pairwise_disjoint s.serialize hadds hfresh hmono
    s.get_excluded_refs doc.origin [] doc.iterate_items []

theorem chunk_spannedItems_pairwise_disjoint_witness :
    List.Pairwise SpansDisjoint
      ((HierarchicalMarkdownChunker.mk "\n").chunk
        ⟨mdSerialize [], []⟩ sampleDoc).1 :=
  chunk_spannedItems_pairwise_disjoint (HierarchicalMarkdownChunker.mk "\n")
    ⟨mdSerialize [], []⟩ sampleDoc
    (mdSerialize_adds []) (mdSerialize_fresh []) (mdSerialize_mono [])

/-- C2: no chunk yielded by `chunk(D)` has empty text or an empty
spannedItems list; such serializations are skipped, never emitted. -/
theorem chunk_text_and_spannedItems_nonempty
    (hmc : HierarchicalMarkdownChunker) (s : MarkdownDocSerializer)
    (doc : DLDocument) (c : Chunk) (hc : c ∈ (hmc.chunk s doc).1) :
    c.text ≠ "" ∧ c.doc_items ≠ [] := by
  have h := chunkLoop_mem_shape s.serialize s.get_excluded_refs doc.origin []
    doc.iterate_items [] c hc
  exact ⟨h.1, h.2.1⟩

theorem chunk_text_and_spannedItems_nonempty_witness :
    sampleChunk0.text ≠ "" ∧ sampleChunk0.doc_items ≠ [] :=
  chunk_text_and_spannedItems_nonempty (HierarchicalMarkdownChunker.mk "\n")
    ⟨mdSerialize [], []⟩ sampleDoc sampleChunk0 (by decide)

/-- C3: every chunk emitted by `chunk(D)` has `headings = none`: the
`heading_by_level` mapping is created empty and never written before
being read. -/
theorem chunk_headings_none
    (hmc : HierarchicalMarkdownChunker) (s : MarkdownDocSerializer)
    (doc : DLDocument) (c : Chunk) (hc : c ∈ (hmc.chunk s doc).1) :
    c.headings = none := by
  have h := chunkLoop_mem_shape s.serialize s.get_excluded_refs doc.origin []
    doc.iterate_items [] c hc
  exact h.2.2.1.trans buildHeadings_nil

theorem chunk_headings_none_witness : sampleChunk0.headings = none :=
  chunk_headings_none (HierarchicalMarkdownChunker.mk "\n")
    ⟨mdSerialize [], []⟩ sampleDoc sampleChunk0 (by decide)

/-- C4: a reference in the excluded set computed at the start of the
chunk operation never appears in any emitted chunk's spannedItems,
whether visited directly (the loop skips it) or reached as a descendant
of a serialized group (the serializer's own exclusion policy, taken here
as the contract hypothesis `hresp`, keeps it out of the reported spans). -/
theorem chunk_excluded_not_in_spannedItems
    (hmc : HierarchicalMarkdownChunker) (s : MarkdownDocSerializer)
    (doc : DLDocument)
    (hresp : ∀ n v, ∀ r ∈ (s.serialize n v).1.spans, r ∉ s.get_excluded_refs)
    (c : Chunk) (hc : c ∈ (hmc.chunk s doc).1) :
    ∀ r ∈ c.doc_items, r ∉ s.get_excluded_refs := by
  obtain ⟨-, -, -, -, n, w, -, hspans⟩ :=
    chunkLoop_mem_shape s.serialize s.get_excluded_refs doc.origin []
      doc.iterate_items [] c hc
  intro r hr
  exact hresp n w r (hspans ▸ hr)

theorem chunk_excluded_not_in_spannedItems_witness :
    "#/texts/0" ∉ ["#/texts/2"] :=
  chunk_excluded_not_in_spannedItems (HierarchicalMarkdownChunker.mk "\n")
    ⟨mdSerialize ["#/texts/2"], ["#/texts/2"]⟩ sampleDoc
    (mdSerialize_respects ["#/texts/2"]) sampleChunk0 (by decide)
    "#/texts/0" (by decide)

/-- C9: every chunk emitted by `chunk(D)` carries the document's origin,
copied unchanged; in particular all chunks of one document share it. -/
theorem chunk_origin_copied
    (hmc : HierarchicalMarkdownChunker) (s : MarkdownDocSerializer)
    (doc : DLDocument) (c : Chunk) (hc : c ∈ (hmc.chunk s doc).1) :
    c.origin = doc.origin := by
  have h := chunkLoop_mem_shape s.serialize s.get_excluded_refs doc.origin []
    doc.iterate_items [] c hc
  exact h.2.2.2.1

theorem chunk_origin_copied_witness : sampleChunk0.origin = sampleDoc.origin :=
  chunk_origin_copied (HierarchicalMarkdownChunker.mk "\n")
    ⟨mdSerialize [], []⟩ sampleDoc sampleChunk0 (by decide)

/-- C5: two calls to `chunk(D)` on the same chunker produce identical
(text, spannedItems) sequences in identical order; the chunker object
after a call is unchanged, so no state leaks from one call into the
next — all traversal state is created fresh inside `chunk`. -/
theorem chunk_idempotent (hmc : HierarchicalMarkdownChunker)
    (s : MarkdownDocSerializer) (doc : DLDocument) :
    (hmc.chunk s doc).2 = hmc ∧
    ((hmc.chunk s doc).2.chunk s doc).1.map (fun c => (c.text, c.doc_items))
      = (hmc.chunk s doc).1.map (fun c => (c.text, c.doc_items)) :=
  ⟨rfl, rfl⟩

/-- C6: the serializer is invoked on a traversed node if and only if the
node's reference is not excluded, its variant is `LeafItem`, `ListGroup`
or `InlineGroup`, and its reference is not yet visited; consequently an
`OtherGroup` is never serialized directly and an already-visited node is
never serialized a second time. -/
theorem serialize_invocation_gate (ser : Serializer) (excl : List String)
    (orig : Option String) (hbl : List (Nat × String)) :
    (∀ (item : Node) (lvl : Nat) (rest : List (Node × Nat))
        (visited : List String),
      (chunkLoopTrace ser excl orig hbl ((item, lvl) :: rest) visited).2
        = if item.self_ref ∉ excl ∧ eligibleKind item = true ∧
              item.self_ref ∉ visited
          then (item, visited) ::
            (chunkLoopTrace ser excl orig hbl rest (ser item visited).2).2
          else (chunkLoopTrace ser excl orig hbl rest visited).2) ∧
    (∀ (items : List (Node × Nat)) (visited : List String) (n : Node)
        (w : List String),
      (n, w) ∈ (chunkLoopTrace ser excl orig hbl items visited).2 →
        n.self_ref ∉ excl ∧ eligibleKind n = true ∧ n.self_ref ∉ w) :=
  ⟨chunkLoopTrace_cons ser excl orig hbl,
   chunkLoopTrace_mem_sound ser excl orig hbl⟩

theorem serialize_invocation_gate_witness :
    sampleGroupNode.self_ref ∉ ([] : List String) ∧
    eligibleKind sampleGroupNode = true ∧
    sampleGroupNode.self_ref ∉ ([] : List String) :=
  (serialize_invocation_gate (mdSerialize []) [] (some "sample.md") []).2
    sampleDoc.iterate_items [] sampleGroupNode [] (List.mem_cons_self _ _)

/-- C7: a serializer exception is propagated unchanged: if the serializer
fails at the node the traversal is about to serialize, the whole
operation returns exactly that error, and any error the operation returns
is one some serializer invocation produced — no catch, no retry, no
substituted recovery value. -/
theorem chunk_propagates_serializer_error {ε : Type}
    (hmc : HierarchicalMarkdownChunker) (ser : SerializerE ε)
    (excl : List String) (orig : Option String) (hbl : List (Nat × String)) :
    (∀ (item : Node) (lvl : Nat) (rest : List (Node × Nat))
        (visited : List String) (e : ε),
      item.self_ref ∉ excl → eligibleKind item = true →
      item.self_ref ∉ visited → ser item visited = .error e →
      chunkLoopE ser excl orig hbl ((item, lvl) :: rest) visited
        = .error e) ∧
    (∀ (dl_doc : DLDocument) (e : ε),
      hmc.chunkE ser excl dl_doc = .error e → ∃ n w, ser n w = .error e) := by
  constructor
  · intro item lvl rest visited e h1 h2 h3 hfail
    simp [chunkLoopE, h1, h2, h3, hfail]
  · intro dl_doc e h
    exact chunkLoopE_error_source ser excl dl_doc.origin []
      dl_doc.iterate_items [] e h

theorem chunk_propagates_serializer_error_witness :
    chunkLoopE failSer [] (some "sample.md") [] [(sampleGroupNode, 0)] []
      = Except.error "dangling reference" :=
  (chunk_propagates_serializer_error (HierarchicalMarkdownChunker.mk "\n")
      failSer [] (some "sample.md") []).1
    sampleGroupNode 0 [] [] "dangling reference"
    (by decide) (by decide) (by decide) rfl

/-- C8: the declared merge-delimiter option is inert: chunkers differing
only in `delim` emit identical chunk sequences on every document, since
`chunk` never reads the option. -/
theorem chunk_delim_inert (d₁ d₂ : String) (s : MarkdownDocSerializer)
    (doc : DLDocument) :
    ((HierarchicalMarkdownChunker.mk d₁).chunk s doc).1
      = ((HierarchicalMarkdownChunker.mk d₂).chunk s doc).1 := rfl

/-- The chunks computed by the state-threaded loop are the chunks of the
plain loop started from the state's components. -/
theorem chunkLoopSt_fst (ser : Serializer) :
    ∀ (items : List (Node × Nat)) (st : ChunkOpState),
      (chunkLoopSt ser items st).1
        = chunkLoop ser st.excluded_refs st.dl_doc.origin
            st.heading_by_level items st.visited := by
  intro items
  induction items with
  | nil => intro st; rfl
  | cons p rest ih =>
    obtain ⟨item, lvl⟩ := p
    intro st
    by_cases h1 : item.self_ref ∈ st.excluded_refs
    · simp [chunkLoopSt, chunkLoop, h1, ih]
    · by_cases h2 : eligibleKind item = true ∧ item.self_ref ∉ st.visited
      · by_cases h3 : (ser item st.visited).1.text = ""
        · simp [chunkLoopSt, chunkLoop, h1, h2, h3, ih]
        · by_cases h4 : (ser item st.visited).1.spans = []
          · simp [chunkLoopSt, chunkLoop, h1, h2, h3, h4, ih]
          · simp [chunkLoopSt, chunkLoop, h1, h2, h3, h4, ih]
      · simp [chunkLoopSt, chunkLoop, h1, h2, ih]

/-- C10: the chunk operation leaves the caller-owned state untouched:
running the loop to completion returns a state with the document (and so
its node tree) and the excluded-reference set unchanged; only the
operation-local `visited` set is written (the serializer, by its
signature in this embedding, can only rewrite the visited set), and
`heading_by_level` is in fact never written either. -/
theorem chunk_frame_effect (ser : Serializer) :
    ∀ (items : List (Node × Nat)) (st : ChunkOpState),
      (chunkLoopSt ser items st).2.dl_doc = st.dl_doc ∧
      (chunkLoopSt ser items st).2.excluded_refs = st.excluded_refs ∧
      (chunkLoopSt ser items st).2.heading_by_level = st.heading_by_level := by
  intro items
  induction items with
  | nil => intro st; exact ⟨rfl, rfl, rfl⟩
  | cons p rest ih =>
    obtain ⟨item, lvl⟩ := p
    intro st
    by_cases h1 : item.self_ref ∈ st.excluded_refs
    · simpa [chunkLoopSt, h1] using ih st
    · by_cases h2 : eligibleKind item = true ∧ item.self_ref ∉ st.visited
      · by_cases h3 : (ser item st.visited).1.text = ""
        · simpa [chunkLoopSt, h1, h2, h3] using
            ih { st with visited := (ser item st.visited).2 }
        · by_cases h4 : (ser item st.visited).1.spans = []
          · simpa [chunkLoopSt, h1, h2, h3, h4] using
              ih { st with visited := (ser item st.visited).2 }
          · simpa [chunkLoopSt, h1, h2, h3, h4] using
              ih { st with visited := (ser item st.visited).2 }
      · simpa [chunkLoopSt, h1, h2] using ih st

end LangextractDocling
